import Mathlib

/-!
Verification of the AgentLab rerun-pipeline scripts.

The definitions below are shallow embeddings of the Python functions in
`run_rerun_pipeline.py`, `process_rerun_results.py`,
`extract_failed_l2_task_ids.py` and `main_webarena_generic_subset_eval.py`.
Python dictionaries that are only ever read through `.get(key, 0)` are
modelled as total functions with default `0`; JSON documents are modelled by
the `JValue` inductive; file existence and shape cases are made explicit in
sum types.
-/

namespace AgentLab

/-- A parsed JSON value (the result of `json.load`). -/
inductive JValue where
  | jnull
  | jbool (b : Bool)
  | jnum (q : Rat)
  | jstr (s : String)
  | jarr (items : List JValue)
  | jobj (fields : List (String × JValue))

/-- `run_rerun_pipeline.load_failed_ids`: the parsed failed-ID store must be a
JSON list of strings, otherwise the script aborts via `SystemExit` with a
descriptive message (modelled as `Except.error`). -/
def load_failed_ids (data : JValue) : Except String (List String) :=
  match data with
  | .jarr items =>
      match items.mapM (fun item => match item with | .jstr s => some s | _ => none) with
      | some ids => .ok ids
      | none => .error "Expected a JSON list of strings"
  | _ => .error "Expected a JSON list of strings"

/-- One trajectory record of a journal entry: `path` is read with
`rec.get("path", "")` (so a missing path is the empty string), `reward` with
`rec.get("reward")` (`none` models a missing reward; the spec declares the
field numeric). -/
structure TrajRecord where
  path : String
  reward : Option Rat
  deriving DecidableEq

/-- One journal entry, per the spec's JournalRecord data model: a string
`task_id` (the empty string models a missing or empty id, both falsy in
Python and skipped by the code) and an ordered list of trajectory records. -/
structure JournalRecord where
  task_id : String
  trajectory_records : List TrajRecord
  deriving DecidableEq

/-- The state of the journal file as seen by `load_failure_counts`:
the file may be missing, parse to a non-list JSON value, or parse to a list
of journal entries. -/
inductive Journal where
  | missing
  | notAList
  | records (entries : List JournalRecord)

/-- `counts[task_id] = counts.get(task_id, 0) + 1` on the dict-as-function
model of the counts dictionary. -/
def bump_failure (task_id : String) (counts : String → Nat) : String → Nat :=
  fun t => if t = task_id then counts t + 1 else counts t

/-- Body of the outer loop of `run_rerun_pipeline.load_failure_counts`:
skip entries with a falsy `task_id`, otherwise bump the count once for every
trajectory record whose `reward` equals `0` (note: the code has no path
filter and no early break here). -/
def count_entry_failures (counts : String → Nat) (entry : JournalRecord) : String → Nat :=
  if entry.task_id = "" then counts
  else
    entry.trajectory_records.foldl
      (fun c r => if r.reward = some 0 then bump_failure entry.task_id c else c)
      counts

/-- `run_rerun_pipeline.load_failure_counts`: a missing journal file and a
journal whose top level is not a JSON list both yield the empty mapping
(no error); otherwise the entries are folded with `count_entry_failures`. -/
def load_failure_counts : Journal → (String → Nat)
  | .missing => fun _ => 0
  | .notAList => fun _ => 0
  | .records entries => entries.foldl count_entry_failures (fun _ => 0)

/-- `run_rerun_pipeline.filter_overfailed`: a non-positive threshold returns
the empty list; otherwise keep the ids whose count (absent = 0, built into
the dict-as-function model) is at most `max_failures`. -/
def filter_overfailed (task_ids : List String) (fail_counts : String → Nat)
    (max_failures : Int) : List String :=
  if max_failures ≤ 0 then []
  else task_ids.filter (fun task_id => decide ((fail_counts task_id : Int) ≤ max_failures))

/-- `run_rerun_pipeline.select_task_ids`: `task_ids[:limit]`, empty when the
limit is non-positive. -/
def select_task_ids (task_ids : List String) (limit : Int) : List String :=
  if limit ≤ 0 then [] else task_ids.take limit.toNat

/-- Outcome of the pipeline prefix that runs before the external engine is
invoked (and before anything can mutate the failed-ID store). -/
inductive PipelineOutcome where
  | abortedBeforeEngine (msg : String)
  | nothingToRun
  | engineInvoked (selected_ids : List String)
  deriving DecidableEq

/-- The prefix of `run_rerun_pipeline.main` up to the external engine
invocation: load the failed-ID store (fatal on bad shape), count failures
from the journal, filter by threshold, select up to
`min(limit, len(filtered))` ids; an empty store or selection terminates with
"nothing to run", otherwise the engine is invoked on the selection. -/
def pipeline_select (failed_store : JValue) (journal : Journal)
    (max_failures limit : Int) : PipelineOutcome :=
  match load_failed_ids failed_store with
  | .error msg => .abortedBeforeEngine msg
  | .ok failed_ids =>
      if failed_ids = [] then .nothingToRun
      else
        let fail_counts := load_failure_counts journal
        let filtered_ids := filter_overfailed failed_ids fail_counts max_failures
        let selected_ids := select_task_ids filtered_ids (min limit (filtered_ids.length : Int))
        if selected_ids = [] then .nothingToRun
        else .engineInvoked selected_ids

/-- The list comprehension inside `process_rerun_results.update_failed_ids`:
`[task_id for task_id in failed_ids if task_id not in success_ids]`. -/
def prune (failed_ids success_ids : List String) : List String :=
  failed_ids.filter (fun task_id => decide (task_id ∉ success_ids))

/-- `process_rerun_results.update_failed_ids`: prune the stored list and
write it back only when the pruned list differs from what was read. The
first component records whether the single conditional write happened, the
second the store's resulting content. -/
def update_failed_ids (failed_ids success_ids : List String) : Bool × List String :=
  let new_failed := prune failed_ids success_ids
  (decide (new_failed ≠ failed_ids), new_failed)

/-- Python's substring test `needle in haystack`, modelled on character
lists: the needle is a prefix of some suffix of the haystack. -/
def containsSublist (needle : List Char) : List Char → Bool
  | [] => needle.isEmpty
  | c :: cs => needle.isPrefixOf (c :: cs) || containsSublist needle cs

/-- Python `"workarena-l2" in path`: the configured benchmark-variant
marker of `extract_failed_l2_task_ids`. -/
def containsMarker (path : String) : Bool :=
  containsSublist "workarena-l2".toList path.toList

/-- The inner loop of `extract_failed_l2_task_ids` over one entry's
trajectory records: records whose path lacks the marker are skipped
(`continue`); at the first record whose path contains it the loop adds the
task exactly when that record's reward is `0` and then breaks. -/
def firstL2Fails : List TrajRecord → Bool
  | [] => false
  | r :: rs =>
      if containsMarker r.path = false then firstL2Fails rs
      else decide (r.reward = some 0)

/-- Body of the outer loop of `extract_failed_l2_task_ids`: the Python set
`failed_task_ids` is modelled as a duplicate-free list extended at the back
on first insertion; entries with a falsy `task_id` are skipped. -/
def extract_step (acc : List String) (item : JournalRecord) : List String :=
  if item.task_id = "" then acc
  else if firstL2Fails item.trajectory_records then
    (if item.task_id ∈ acc then acc else acc ++ [item.task_id])
  else acc

/-- `extract_failed_l2_task_ids.extract_failed_l2_task_ids`: collect the set
of failing task ids and return Python's `sorted(...)` of it, modelled with
`List.insertionSort` (which yields the ascending arrangement). -/
def extract_failed_l2_task_ids (records : List JournalRecord) : List String :=
  List.insertionSort (· ≤ ·) (records.foldl extract_step [])

/-- One sub-folder of a run directory as seen by
`process_rerun_results`: its name and the parsed contents (if present) of
the two recognized summary files, each a JSON object whose fields are
numeric (the spec declares `cum_reward` numeric). -/
structure RunFolder where
  name : String
  summary_info : Option (List (String × Rat))
  summary : Option (List (String × Rat))
  deriving DecidableEq

/-- `process_rerun_results.load_summary`: try `summary_info.json` first,
then `summary.json`; the first file found wins, `none` when neither
exists. -/
def load_summary (run_dir : RunFolder) : Option (List (String × Rat)) :=
  match run_dir.summary_info with
  | some s => some s
  | none => run_dir.summary

/-- `summary.get(key)` on the object-as-association-list model (keys of a
parsed JSON object are unique). -/
def lookupField (fields : List (String × Rat)) (key : String) : Option Rat :=
  (fields.find? (fun p => decide (p.1 = key))).map (fun p => p.2)

/-- Python `name.split(delim, 1)` restricted to a non-empty delimiter:
split at the first occurrence of `delim`, returning the parts before and
after it, or `none` when `delim` does not occur. -/
def splitFirst (delim : List Char) : List Char → Option (List Char × List Char)
  | [] => none
  | c :: cs =>
      if delim.isPrefixOf (c :: cs) then some ([], (c :: cs).drop delim.length)
      else
        match splitFirst delim cs with
        | some (pre, post) => some (c :: pre, post)
        | none => none

/-- `process_rerun_results.parse_task_id`: `None` when `"_on_"` does not
occur in the folder name, otherwise the part after its first occurrence. -/
def parse_task_id (name : String) : Option String :=
  (splitFirst "_on_".toList name.toList).map (fun p => String.mk p.2)

/-- `process_rerun_results.iter_successes`: keep, in scan order, each folder
whose summary loads and is truthy (a missing or empty summary is skipped
without error), whose `cum_reward` equals `1`, and whose name parses to a
task id (folders without the delimiter are skipped without error). -/
def iter_successes (folders : List RunFolder) : List (String × RunFolder) :=
  folders.filterMap (fun run_dir =>
    match load_summary run_dir with
    | none => none
    | some summary =>
        if summary = [] then none
        else if lookupField summary "cum_reward" ≠ some 1 then none
        else
          match parse_task_id run_dir.name with
          | none => none
          | some task_id => some (task_id, run_dir))

/-- One directory under the runs root: its name and modification time (the
value `p.stat().st_mtime` read when `pick_run_dir` compares candidates). -/
structure DirEntry where
  name : String
  mtime : Int
  deriving DecidableEq

/-- Python `max(d :: ds, key=lambda p: p.stat().st_mtime)`: fold keeping the
current candidate unless a strictly later mtime appears (so the first
maximum wins, as in Python). -/
def max_by_mtime (d : DirEntry) (ds : List DirEntry) : DirEntry :=
  ds.foldl (fun acc x => if acc.mtime < x.mtime then x else acc) d

/-- `after - before` in `pick_run_dir`: the directories of the after
snapshot whose names were not present in the before snapshot. -/
def new_run_dirs (after : List DirEntry) (before : List String) : List DirEntry :=
  after.filter (fun d => decide (d.name ∉ before))

/-- `run_rerun_pipeline.pick_run_dir`: fatal when the root is missing;
exactly one new directory is returned directly; several new directories
resolve to the one with the latest mtime; with no new directory a non-empty
root resolves to the latest existing directory and an empty root is fatal. -/
def pick_run_dir (root_exists : Bool) (after : List DirEntry) (before : List String) :
    Except String DirEntry :=
  if root_exists = false then .error "Runs root does not exist after rerun"
  else
    match new_run_dirs after before with
    | [d] => .ok d
    | d :: ds => .ok (max_by_mtime d ds)
    | [] =>
        match after with
        | [] => .error "No run directories found"
        | d :: ds => .ok (max_by_mtime d ds)

/-- The shard filter of `main_webarena_generic_subset_eval.main`:
`[ea for idx, ea in enumerate(lst) if idx % num_shards == shard_index]`. -/
def shard_filter {α : Type} (l : List α) (num_shards shard_index : Nat) : List α :=
  (l.enum.filter (fun p => decide (p.1 % num_shards = shard_index))).map Prod.snd

/-- C5: for every failed-ID list, failure-count mapping and threshold, a
non-positive threshold yields the empty list, and a positive threshold keeps
exactly the ids whose failure count is at most the threshold, as a sublist
(hence in the input's relative order). -/
theorem filter_overfailed_spec (ids : List String) (counts : String → Nat) (mf : Int) :
    (mf ≤ 0 → filter_overfailed ids counts mf = [])
    ∧ (0 < mf →
        filter_overfailed ids counts mf
          = ids.filter (fun id => decide ((counts id : Int) ≤ mf))
        ∧ (filter_overfailed ids counts mf).Sublist ids
        ∧ ∀ t, t ∈ filter_overfailed ids counts mf ↔ t ∈ ids ∧ (counts t : Int) ≤ mf) := by
  constructor
  · intro h
    simp [filter_overfailed, h]
  · intro h
    have hneg : ¬ mf ≤ 0 := by omega
    refine ⟨by simp [filter_overfailed, hneg], ?_, ?_⟩
    · simp only [filter_overfailed, if_neg hneg]
      exact List.filter_sublist ids
    · intro t
      simp [filter_overfailed, hneg]

/-- Witness for C5 at a concrete input. -/
theorem filter_overfailed_spec_witness :
    filter_overfailed ["a", "b"] (fun _ => 0) (-1) = []
    ∧ filter_overfailed ["a", "b"] (fun _ => 0) 1 = ["a", "b"] := by
  refine ⟨(filter_overfailed_spec ["a", "b"] (fun _ => 0) (-1)).1 (by decide), ?_⟩
  have h := ((filter_overfailed_spec ["a", "b"] (fun _ => 0) 1).2 (by decide)).1
  rw [h]
  decide

/-- C6: pruning a failed-ID list by a success set is idempotent. -/
theorem prune_idempotent (L S : List String) : prune (prune L S) S = prune L S := by
  simp [prune, List.filter_filter]

/-- C7: the store is written exactly when the pruned list differs from what
was read; when no success id occurs in the stored list there is no write (in
particular a second reconciliation pass over the already-pruned store does
not write); and each pass performs at most one write. -/
theorem update_failed_ids_write_policy (L S : List String) :
    ((update_failed_ids L S).1 = true ↔ prune L S ≠ L)
    ∧ ((∀ t ∈ L, t ∉ S) → (update_failed_ids L S).1 = false)
    ∧ (update_failed_ids (prune L S) S).1 = false
    ∧ (if (update_failed_ids L S).1 then 1 else 0) ≤ 1 := by
  refine ⟨by simp [update_failed_ids], ?_, ?_, ?_⟩
  · intro h
    have : prune L S = L := List.filter_eq_self.mpr (fun t ht => by simpa using h t ht)
    simp [update_failed_ids, this]
  · simp [update_failed_ids, prune_idempotent]
  · split <;> omega

/-- Witness for C7 at a concrete input. -/
theorem update_failed_ids_write_policy_witness :
    (update_failed_ids ["t1", "t2"] ["t3"]).1 = false :=
  (update_failed_ids_write_policy ["t1", "t2"] ["t3"]).2.1 (by decide)

/-- C10: a missing journal file yields the empty failure-count mapping, and
with any positive threshold every id in the failed-ID list then passes the
eligibility filter. -/
theorem missing_journal_all_eligible :
    load_failure_counts .missing = (fun _ => 0)
    ∧ ∀ (ids : List String) (mf : Int), 0 < mf →
        filter_overfailed ids (load_failure_counts .missing) mf = ids := by
  refine ⟨rfl, ?_⟩
  intro ids mf h
  have hneg : ¬ mf ≤ 0 := by omega
  simp only [filter_overfailed, if_neg hneg, load_failure_counts]
  apply List.filter_eq_self.mpr
  intro t _
  simpa using h.le

/-- Witness for C10 at a concrete input. -/
theorem missing_journal_all_eligible_witness :
    filter_overfailed ["t1", "t2"] (load_failure_counts .missing) 15 = ["t1", "t2"] :=
  missing_journal_all_eligible.2 ["t1", "t2"] 15 (by decide)

theorem mem_extract_step {acc : List String} {item : JournalRecord} {t : String} :
    t ∈ extract_step acc item ↔
      t ∈ acc ∨ (item.task_id = t ∧ t ≠ ""
        ∧ firstL2Fails item.trajectory_records = true) := by
  unfold extract_step
  by_cases h0 : item.task_id = ""
  · simp only [if_pos h0]
    constructor
    · exact Or.inl
    · rintro (h | ⟨rfl, ht, _⟩)
      · exact h
      · exact absurd h0 ht
  · simp only [if_neg h0]
    by_cases h1 : firstL2Fails item.trajectory_records
    · simp only [if_pos h1]
      by_cases h2 : item.task_id ∈ acc
      · simp only [if_pos h2]
        constructor
        · exact Or.inl
        · rintro (h | ⟨rfl, _, _⟩)
          · exact h
          · exact h2
      · simp only [if_neg h2, List.mem_append, List.mem_singleton]
        constructor
        · rintro (h | rfl)
          · exact Or.inl h
          · exact Or.inr ⟨rfl, h0, h1⟩
        · rintro (h | ⟨rfl, _, _⟩)
          · exact Or.inl h
          · exact Or.inr rfl
    · simp only [if_neg h1]
      constructor
      · exact Or.inl
      · rintro (h | ⟨_, _, hf⟩)
        · exact h
        · exact absurd hf h1

theorem mem_foldl_extract_step (records : List JournalRecord) :
    ∀ (acc : List String) (t : String),
      t ∈ records.foldl extract_step acc ↔
        t ∈ acc ∨ ∃ e ∈ records, e.task_id = t ∧ t ≠ ""
          ∧ firstL2Fails e.trajectory_records = true := by
  induction records with
  | nil => intro acc t; simp
  | cons e es ih =>
      intro acc t
      rw [List.foldl_cons, ih, mem_extract_step]
      simp only [List.mem_cons]
      constructor
      · rintro ((h | h) | ⟨e', he', h'⟩)
        · exact Or.inl h
        · exact Or.inr ⟨e, Or.inl rfl, h⟩
        · exact Or.inr ⟨e', Or.inr he', h'⟩
      · rintro (h | ⟨e', (rfl | he'), h'⟩)
        · exact Or.inl (Or.inl h)
        · exact Or.inl (Or.inr h')
        · exact Or.inr ⟨e', he', h'⟩

theorem nodup_extract_step {acc : List String} (item : JournalRecord)
    (h : acc.Nodup) : (extract_step acc item).Nodup := by
  unfold extract_step
  split
  · exact h
  · split
    · split
      · exact h
      · rename_i hnot
        rw [List.nodup_append]
        refine ⟨h, List.nodup_singleton _, ?_⟩
        intro a ha hae
        exact hnot ((List.mem_singleton.mp hae) ▸ ha)
    · exact h

theorem nodup_foldl_extract_step (records : List JournalRecord) :
    ∀ acc : List String, acc.Nodup → (records.foldl extract_step acc).Nodup := by
  induction records with
  | nil => intro acc h; simpa using h
  | cons e es ih =>
      intro acc h
      rw [List.foldl_cons]
      exact ih _ (nodup_extract_step e h)

theorem firstL2Fails_eq_find (rs : List TrajRecord) :
    firstL2Fails rs =
      ((rs.find? (fun r => containsMarker r.path)).map
        (fun r => decide (r.reward = some 0))).getD false := by
  induction rs with
  | nil => rfl
  | cons r rs ih =>
      rw [firstL2Fails]
      by_cases h : containsMarker r.path = true
      · simp [List.find?, h]
      · have h' : containsMarker r.path = false := by
          revert h; cases containsMarker r.path <;> simp
        simp [List.find?, h', ih]

theorem firstL2Fails_iff (rs : List TrajRecord) :
    firstL2Fails rs = true ↔
      ∃ r, rs.find? (fun r => containsMarker r.path) = some r ∧ r.reward = some 0 := by
  rw [firstL2Fails_eq_find]
  cases h : rs.find? (fun r => containsMarker r.path) <;> simp

theorem traj_fold_count (rs : List TrajRecord) (k : String) :
    ∀ (c : String → Nat) (t : String),
      (rs.foldl (fun c r => if r.reward = some 0 then bump_failure k c else c) c) t
        = c t + (if t = k then rs.countP (fun r => decide (r.reward = some 0)) else 0) := by
  induction rs with
  | nil => intro c t; simp
  | cons r rs ih =>
      intro c t
      rw [List.foldl_cons, List.countP_cons]
      by_cases h : r.reward = some 0 <;> by_cases hk : t = k <;>
        (simp [h, hk, ih, bump_failure]; try omega)

theorem count_entry_failures_apply (c : String → Nat) (e : JournalRecord)
    (t : String) (ht : t ≠ "") :
    count_entry_failures c e t
      = c t + (if e.task_id = t then
          e.trajectory_records.countP (fun r => decide (r.reward = some 0)) else 0) := by
  unfold count_entry_failures
  by_cases h : e.task_id = ""
  · rw [if_pos h]
    have hne : ¬ e.task_id = t := fun ha => ht (ha.symm.trans h)
    rw [if_neg hne]
    omega
  · rw [if_neg h, traj_fold_count]
    congr 1
    by_cases hk : e.task_id = t
    · rw [if_pos hk.symm, if_pos hk]
    · rw [if_neg (fun ha => hk ha.symm), if_neg hk]

theorem records_fold_count (entries : List JournalRecord) :
    ∀ (c : String → Nat) (t : String), t ≠ "" →
      (entries.foldl count_entry_failures c) t
        = c t + (entries.map (fun e =>
            if e.task_id = t then
              e.trajectory_records.countP (fun r => decide (r.reward = some 0))
            else 0)).sum := by
  induction entries with
  | nil => intro c t _; simp
  | cons e es ih =>
      intro c t ht
      rw [List.foldl_cons, ih _ _ ht, count_entry_failures_apply _ _ _ ht,
        List.map_cons, List.sum_cons]
      omega

/-- C1 counterexample: a single journal record with two reward-0 trajectory
records, neither of whose paths contains the benchmark-variant marker,
makes `load_failure_counts` report failure count 2 for its task — more than
one increment for one journal record, and increments that do not come from
a path-matching trajectory record. -/
theorem load_failure_counts_counterexample :
    ([⟨"t", [⟨"x", some 0⟩, ⟨"x", some 0⟩]⟩] : List JournalRecord).length = 1
    ∧ load_failure_counts
        (.records [⟨"t", [⟨"x", some 0⟩, ⟨"x", some 0⟩]⟩]) "t" = 2
    ∧ containsMarker "x" = false := by
  refine ⟨rfl, ?_, by decide⟩
  decide

/-- C1 (amended): `load_failure_counts` gives a task the total number of
reward-0 trajectory records across all of its journal records, with no path
filtering and no per-record cap; the first-matching-path rule with at most
one contribution per record governs only `extract_failed_l2_task_ids`,
whose output contains a task id exactly when some journal record for it has
a first path-matching trajectory record with reward 0. -/
theorem failure_count_and_extract_spec (entries : List JournalRecord)
    (t : String) (ht : t ≠ "") :
    load_failure_counts (.records entries) t
      = (entries.map (fun e =>
          if e.task_id = t then
            e.trajectory_records.countP (fun r => decide (r.reward = some 0))
          else 0)).sum
    ∧ (t ∈ extract_failed_l2_task_ids entries ↔
        ∃ e ∈ entries, e.task_id = t
          ∧ ∃ r, e.trajectory_records.find? (fun r => containsMarker r.path) = some r
              ∧ r.reward = some 0) := by
  constructor
  · show (entries.foldl count_entry_failures (fun _ => 0)) t = _
    rw [records_fold_count entries _ _ ht, Nat.zero_add]
  · rw [extract_failed_l2_task_ids, List.mem_insertionSort,
      mem_foldl_extract_step entries [] t]
    simp only [List.not_mem_nil, false_or]
    constructor
    · rintro ⟨e, he, hid, -, hf⟩
      exact ⟨e, he, hid, (firstL2Fails_iff _).mp hf⟩
    · rintro ⟨e, he, hid, hr⟩
      exact ⟨e, he, hid, ht, (firstL2Fails_iff _).mpr hr⟩

/-- Witness for the amended C1 at a concrete input. -/
theorem failure_count_and_extract_spec_witness :
    "t" ∈ extract_failed_l2_task_ids [⟨"t", [⟨"workarena-l2", some 0⟩]⟩] :=
  ((failure_count_and_extract_spec [⟨"t", [⟨"workarena-l2", some 0⟩]⟩] "t"
      (by decide)).2).mpr
    ⟨⟨"t", [⟨"workarena-l2", some 0⟩]⟩, by decide, rfl,
      ⟨"workarena-l2", some 0⟩, by decide, rfl⟩

/-- C9: the failed-task-ID extraction always returns a list sorted in
ascending order with no duplicate ids. -/
theorem extract_sorted_nodup (records : List JournalRecord) :
    (extract_failed_l2_task_ids records).Sorted (· ≤ ·)
    ∧ (extract_failed_l2_task_ids records).Nodup := by
  refine ⟨List.sorted_insertionSort _ _, ?_⟩
  exact ((List.perm_insertionSort _ _).nodup_iff).mpr
    (nodup_foldl_extract_step records [] List.nodup_nil)

/-- C2 counterexample: with a well-formed failed-ID store but a journal
whose top level is not a JSON list, the pipeline does not abort — it
proceeds with an empty failure-count mapping and invokes the engine. -/
theorem journal_shape_counterexample :
    pipeline_select (.jarr [.jstr "t1"]) .notAList 15 62 = .engineInvoked ["t1"]
    ∧ load_failure_counts .notAList = (fun _ => 0) := by
  exact ⟨by decide, rfl⟩

/-- C2 (amended): a failed-ID store that is not a JSON list of strings
aborts the pipeline with its descriptive error before the engine is invoked
(and before anything can mutate the store), while a journal whose top level
is not a JSON list is tolerated: it yields the empty failure-count mapping
and no abort. -/
theorem store_shape_aborts_journal_shape_tolerated (store : JValue)
    (journal : Journal) (mf limit : Int) (msg : String)
    (h : load_failed_ids store = .error msg) :
    pipeline_select store journal mf limit = .abortedBeforeEngine msg
    ∧ load_failure_counts .notAList = (fun _ => 0) := by
  refine ⟨?_, rfl⟩
  unfold pipeline_select
  rw [h]

/-- Witness for the amended C2 at a concrete input. -/
theorem store_shape_aborts_witness :
    pipeline_select (.jobj []) .missing 15 62
      = .abortedBeforeEngine "Expected a JSON list of strings" :=
  (store_shape_aborts_journal_shape_tolerated (.jobj []) .missing 15 62 _ rfl).1

/-- C3: a folder is reported as a success exactly when a summary document
loads, is truthy, and carries `cum_reward` equal to `1`, and its name parses
to a task id after the first `"_on_"`; the concrete cases of the spec:
`cum_reward = 1` succeeds with the part after the delimiter as the id,
`cum_reward = 0.5` yields no success, a name without the delimiter yields no
success and no error. -/
theorem iter_successes_spec (folders : List RunFolder) :
    (∀ (task_id : String) (run_dir : RunFolder),
        (task_id, run_dir) ∈ iter_successes folders ↔
          run_dir ∈ folders ∧ ∃ summary, load_summary run_dir = some summary
            ∧ summary ≠ [] ∧ lookupField summary "cum_reward" = some 1
            ∧ parse_task_id run_dir.name = some task_id)
    ∧ iter_successes [⟨"run42_on_webarena.17_3", some [("cum_reward", 1)], none⟩]
        = [("webarena.17_3", ⟨"run42_on_webarena.17_3", some [("cum_reward", 1)], none⟩)]
    ∧ iter_successes [⟨"run42_on_webarena.17_3", some [("cum_reward", mkRat 1 2)], none⟩] = []
    ∧ iter_successes [⟨"run42", some [("cum_reward", 1)], none⟩] = [] := by
  refine ⟨?_, by decide, by decide, by decide⟩
  intro task_id run_dir
  rw [iter_successes, List.mem_filterMap]
  constructor
  · rintro ⟨f, hf, hsome⟩
    split at hsome
    · exact absurd hsome (by simp)
    · rename_i summary hls
      by_cases hemp : summary = []
      · rw [if_pos hemp] at hsome
        simp at hsome
      · rw [if_neg hemp] at hsome
        by_cases hcr : lookupField summary "cum_reward" ≠ some 1
        · rw [if_pos hcr] at hsome
          simp at hsome
        · rw [if_neg hcr] at hsome
          split at hsome
          · simp at hsome
          · rename_i tid hpt
            simp only [Option.some.injEq, Prod.mk.injEq] at hsome
            obtain ⟨rfl, rfl⟩ := hsome
            exact ⟨hf, summary, hls, hemp, not_not.mp hcr, hpt⟩
  · rintro ⟨hmem, summary, hls, hemp, hcr, hpt⟩
    refine ⟨run_dir, hmem, ?_⟩
    simp [hls, hemp, hcr, hpt]

theorem max_by_mtime_spec (ds : List DirEntry) :
    ∀ d : DirEntry, (max_by_mtime d ds ∈ d :: ds)
      ∧ ∀ e ∈ d :: ds, e.mtime ≤ (max_by_mtime d ds).mtime := by
  induction ds with
  | nil =>
      intro d
      refine ⟨by simp [max_by_mtime], ?_⟩
      intro e he
      rcases List.mem_cons.mp he with rfl | h
      · exact le_refl _
      · simp at h
  | cons x ds ih =>
      intro d
      have step : max_by_mtime d (x :: ds)
          = max_by_mtime (if d.mtime < x.mtime then x else d) ds := rfl
      obtain ⟨hmem, hge⟩ := ih (if d.mtime < x.mtime then x else d)
      have hhead : d.mtime ≤ (if d.mtime < x.mtime then x else d).mtime := by
        split_ifs with hx
        · exact le_of_lt hx
        · exact le_refl _
      have hx_le : x.mtime ≤ (if d.mtime < x.mtime then x else d).mtime := by
        split_ifs with hx
        · exact le_refl _
        · exact le_of_not_lt hx
      have hin : (if d.mtime < x.mtime then x else d) ∈ d :: x :: ds := by
        split_ifs
        · exact List.mem_cons_of_mem _ (List.mem_cons_self _ _)
        · exact List.mem_cons_self _ _
      constructor
      · rw [step]
        rcases List.mem_cons.mp hmem with heq | hds
        · rw [heq]; exact hin
        · exact List.mem_cons_of_mem _ (List.mem_cons_of_mem _ hds)
      · intro e he
        rw [step]
        have hstart := hge _ (List.mem_cons_self _ _)
        rcases List.mem_cons.mp he with rfl | he'
        · exact le_trans hhead hstart
        · rcases List.mem_cons.mp he' with rfl | he''
          · exact le_trans hx_le hstart
          · exact hge _ (List.mem_cons_of_mem _ he'')

/-- C4: run-directory detection is fatal when the root is missing or empty;
exactly one new directory is returned directly; with several new
directories the result is a new directory of maximal mtime; with none the
result is an existing directory of maximal mtime; and with before `{A, B}`
and after `{A, B, C}` it returns `C`. -/
theorem pick_run_dir_spec (after : List DirEntry) (before : List String) :
    (∃ msg, pick_run_dir false after before = .error msg)
    ∧ (∃ msg, pick_run_dir true [] before = .error msg)
    ∧ (∀ d, new_run_dirs after before = [d] → pick_run_dir true after before = .ok d)
    ∧ (2 ≤ (new_run_dirs after before).length →
        ∃ d, pick_run_dir true after before = .ok d ∧ d ∈ new_run_dirs after before
          ∧ ∀ e ∈ new_run_dirs after before, e.mtime ≤ d.mtime)
    ∧ (new_run_dirs after before = [] → after ≠ [] →
        ∃ d, pick_run_dir true after before = .ok d ∧ d ∈ after
          ∧ ∀ e ∈ after, e.mtime ≤ d.mtime)
    ∧ pick_run_dir true [⟨"A", 1⟩, ⟨"B", 2⟩, ⟨"C", 0⟩] ["A", "B"]
        = .ok ⟨"C", 0⟩ := by
  refine ⟨⟨_, rfl⟩, ⟨_, rfl⟩, ?_, ?_, ?_, by rfl⟩
  · intro d h
    simp [pick_run_dir, h]
  · intro hlen
    rcases hnd : new_run_dirs after before with _ | ⟨d, ds⟩
    · rw [hnd] at hlen; simp at hlen
    · rcases ds with _ | ⟨x, ds'⟩
      · rw [hnd] at hlen; simp at hlen
      · obtain ⟨hmem, hge⟩ := max_by_mtime_spec (x :: ds') d
        refine ⟨max_by_mtime d (x :: ds'), ?_, hmem, hge⟩
        simp [pick_run_dir, hnd]
  · intro hnew hne
    cases after with
    | nil => exact absurd rfl hne
    | cons d ds =>
        obtain ⟨hmem, hge⟩ := max_by_mtime_spec ds d
        refine ⟨max_by_mtime d ds, ?_, hmem, hge⟩
        simp [pick_run_dir, hnew]

/-- Witness for C4 at a concrete input: the singleton set difference case. -/
theorem pick_run_dir_spec_witness :
    pick_run_dir true [⟨"A", 1⟩, ⟨"B", 2⟩, ⟨"C", 0⟩] ["A", "B"] = .ok ⟨"C", 0⟩ :=
  (pick_run_dir_spec [⟨"A", 1⟩, ⟨"B", 2⟩, ⟨"C", 0⟩] ["A", "B"]).2.2.1 ⟨"C", 0⟩ (by decide)

theorem mem_shard_filter {α : Type} {l : List α} {n i : Nat} {x : α} :
    x ∈ shard_filter l n i ↔ ∃ idx, l[idx]? = some x ∧ idx % n = i := by
  unfold shard_filter
  rw [List.mem_map]
  constructor
  · rintro ⟨p, hp, rfl⟩
    rw [List.mem_filter] at hp
    obtain ⟨hmem, hmod⟩ := hp
    obtain ⟨idx, a⟩ := p
    exact ⟨idx, List.mk_mem_enum_iff_getElem?.mp hmem, by simpa using hmod⟩
  · rintro ⟨idx, hidx, hmod⟩
    refine ⟨(idx, x), ?_, rfl⟩
    rw [List.mem_filter]
    exact ⟨List.mk_mem_enum_iff_getElem?.mpr hidx, by simpa using hmod⟩

/-- C8 counterexample: over a task list with a repeated element the shard
outputs are not disjoint — the task `"a"` of `["a", "a"]` appears in shard
0 and in shard 1 of a 2-way sharding. -/
theorem shard_filter_counterexample :
    "a" ∈ shard_filter ["a", "a"] 2 0 ∧ "a" ∈ shard_filter ["a", "a"] 2 1
    ∧ (0 : Nat) ≠ 1 := by decide

/-- C8 (amended): for a positive shard count, every task of the input list
appears in some shard with index below the count, every shard draws only
from the input, and on a duplicate-free task list (a task set, as the spec
words it) no task appears in two different shards. -/
theorem shard_filter_partition {α : Type} (l : List α) (n : Nat) (hn : 0 < n) :
    (∀ x, x ∈ l ↔ ∃ i, i < n ∧ x ∈ shard_filter l n i)
    ∧ (l.Nodup → ∀ i j, i < n → j < n → i ≠ j →
        ∀ x, x ∈ shard_filter l n i → x ∉ shard_filter l n j) := by
  constructor
  · intro x
    constructor
    · intro hx
      obtain ⟨idx, hidx⟩ := List.mem_iff_getElem?.mp hx
      exact ⟨idx % n, Nat.mod_lt _ hn, mem_shard_filter.mpr ⟨idx, hidx, Nat.mod_mod_of_dvd _ (dvd_refl _) ▸ rfl⟩⟩
    · rintro ⟨i, -, hx⟩
      obtain ⟨idx, hidx, -⟩ := mem_shard_filter.mp hx
      exact List.mem_iff_getElem?.mpr ⟨idx, hidx⟩
  · intro hnd i j hi hj hij x hxi hxj
    obtain ⟨idx1, hidx1, hmod1⟩ := mem_shard_filter.mp hxi
    obtain ⟨idx2, hidx2, hmod2⟩ := mem_shard_filter.mp hxj
    have hlt : idx1 < l.length := by
      have := List.getElem?_eq_some_iff.mp hidx1
      exact this.1
    have heq : idx1 = idx2 :=
      List.getElem?_inj hlt hnd (hidx1.trans hidx2.symm)
    exact hij (hmod1 ▸ heq ▸ hmod2 ▸ rfl)

/-- Witness for the amended C8 at a concrete input. -/
theorem shard_filter_partition_witness :
    ∃ i, i < 2 ∧ (3 : Nat) ∈ shard_filter [3, 4, 5] 2 i :=
  ((shard_filter_partition [3, 4, 5] 2 (by decide)).1 3).mp (by decide)

end AgentLab
